import Mathlib

/-!
Verification of the NetSuite KPI refresh script (`refresh_script.py`).

The script fetches flat sales-order records, enriches each record with six
derived KPI fields (`calculate_kpi_fields`), and writes a snapshot with
metadata (`save_to_json`).  Records are Python dicts mapping field names to
scalar values; here they are ordered association lists.  Python floats are
modelled as exact rationals; date parsing (`datetime.strptime` with format
`%Y-%m-%d`) is modelled after CPython's `_strptime` regular expressions
(`%Y` = four digits, `%m` = `1[0-2]|0[1-9]|[1-9]`,
`%d` = `3[01]|[12]\d|0[1-9]|[1-9]`) followed by `datetime`'s calendar
validation; non-ASCII digit characters, underscore digit grouping and the
non-finite float literals (`inf`, `nan`) are outside the model.
-/

/-- A scalar value of a record field: a string, a number (Python ints and
floats, modelled exactly as rationals), or `None`.  An absent key is
represented by absence from the association list. -/
inductive Value where
  | vStr : String → Value
  | vNum : ℚ → Value
  | vNull : Value
deriving DecidableEq

/-- One record: an ordered association list of fields, modelling a Python
dict (keys unique, insertion-ordered). -/
abbrev Record := List (String × Value)

/-- Python `row.get(k)`: the value at the first occurrence of key `k`, or
none when the key is absent. -/
def rget : Record → String → Option Value
  | [], _ => none
  | (k', v') :: rest, k => if k' = k then some v' else rget rest k

/-- Python `row[k] = v`: replace the value at key `k` in place if present,
else append the key at the end (dict insertion order). -/
def rset : Record → String → Value → Record
  | [], k, v => [(k, v)]
  | (k', v') :: rest, k, v =>
    if k' = k then (k, v) :: rest else (k', v') :: rset rest k v

/-- Python truthiness of a field value: a string is truthy iff non-empty, a
number iff non-zero, `None` is falsy. -/
def truthy : Value → Bool
  | .vStr s => !s.isEmpty
  | .vNum q => decide (q ≠ 0)
  | .vNull => false

/-- The value of `row.get(k)` when it passes an `if row.get(k):` truthiness
guard, and `none` when the guard fails (key absent or value falsy). -/
def getTruthy (row : Record) (k : String) : Option Value :=
  match rget row k with
  | some v => if truthy v then some v else none
  | none => none

/-- Decimal digit value of a character (0 for characters below `'0'`). -/
def dval (c : Char) : ℕ := c.toNat - 48

/-- ASCII decimal digit test. -/
def isDigitC (c : Char) : Bool := decide (48 ≤ c.toNat) && decide (c.toNat ≤ 57)

/-- Value of a list of decimal digits, most significant first. -/
def digitsVal (l : List Char) : ℕ := l.foldl (fun a c => 10 * a + dval c) 0

/-- CPython `_strptime` directive `%Y`: exactly four digits. -/
def readYear : List Char → Option (ℕ × List Char)
  | a :: b :: c :: d :: rest =>
    if isDigitC a = true ∧ isDigitC b = true ∧ isDigitC c = true ∧ isDigitC d = true then
      some (1000 * dval a + 100 * dval b + 10 * dval c + dval d, rest)
    else none
  | _ => none

/-- CPython `_strptime` directive `%m`, the regular expression
`1[0-2]|0[1-9]|[1-9]`: a one- or two-digit month in 1..12, leading zero
optional.  Alternatives are tried left to right; a one-digit match is only
taken when no two-digit alternative matches, which agrees with the regex
because a successful two-digit alternative leaves the overall pattern's
following literal (`-` or end) unsatisfiable for the one-digit split. -/
def readMonth : List Char → Option (ℕ × List Char)
  | [] => none
  | [c] => if isDigitC c = true ∧ 1 ≤ dval c then some (dval c, []) else none
  | c1 :: c2 :: rest =>
    if isDigitC c1 = true ∧ isDigitC c2 = true ∧ dval c1 = 1 ∧ dval c2 ≤ 2 then
      some (10 + dval c2, rest)
    else if isDigitC c1 = true ∧ isDigitC c2 = true ∧ dval c1 = 0 ∧ 1 ≤ dval c2 then
      some (dval c2, rest)
    else if isDigitC c1 = true ∧ 1 ≤ dval c1 then
      some (dval c1, c2 :: rest)
    else none

/-- CPython `_strptime` directive `%d`, the regular expression
`3[01]|[12]\d|0[1-9]|[1-9]`: a one- or two-digit day in 1..31, leading zero
optional. -/
def readDay : List Char → Option (ℕ × List Char)
  | [] => none
  | [c] => if isDigitC c = true ∧ 1 ≤ dval c then some (dval c, []) else none
  | c1 :: c2 :: rest =>
    if isDigitC c1 = true ∧ isDigitC c2 = true ∧ dval c1 = 3 ∧ dval c2 ≤ 1 then
      some (30 + dval c2, rest)
    else if isDigitC c1 = true ∧ isDigitC c2 = true ∧ (dval c1 = 1 ∨ dval c1 = 2) then
      some (10 * dval c1 + dval c2, rest)
    else if isDigitC c1 = true ∧ isDigitC c2 = true ∧ dval c1 = 0 ∧ 1 ≤ dval c2 then
      some (dval c2, rest)
    else if isDigitC c1 = true ∧ 1 ≤ dval c1 then
      some (dval c1, c2 :: rest)
    else none

/-- The literal `-` of the format string: consumed when next, else the
match fails. -/
def expectDash : List Char → Option (List Char)
  | c :: r => if c = '-' then some r else none
  | [] => none

/-- The full `strptime(s, "%Y-%m-%d")` textual match: year, `-`, month, `-`,
day, end of string (`strptime` raises on any unconverted remainder). -/
def parseCivil (l : List Char) : Option (ℕ × ℕ × ℕ) :=
  (readYear l).bind fun p1 =>
    (expectDash p1.2).bind fun r2 =>
      (readMonth r2).bind fun p2 =>
        (expectDash p2.2).bind fun r4 =>
          (readDay r4).bind fun p3 =>
            if p3.2 = [] then some (p1.1, p2.1, p3.1) else none

/-- Gregorian leap-year rule, as in CPython `datetime`. -/
def isLeapYear (y : ℕ) : Bool :=
  decide (y % 4 = 0) && (decide (y % 100 ≠ 0) || decide (y % 400 = 0))

/-- Length of a month, as in CPython `datetime` (`m` is 1..12 at call sites). -/
def daysInMonth (y m : ℕ) : ℕ :=
  if m = 2 then (if isLeapYear y then 29 else 28)
  else if m = 4 ∨ m = 6 ∨ m = 9 ∨ m = 11 then 30
  else 31

/-- A calendar date as `datetime` holds it. -/
structure CivilDate where
  year : ℕ
  month : ℕ
  day : ℕ
deriving DecidableEq

/-- `datetime.strptime(s, "%Y-%m-%d")` as a partial function: the textual
match, then the `datetime` constructor's range check (year 1..9999 — the
upper bound is automatic with four digits — and day at most the month's
length); any failure is a raised exception, modelled as `none`. -/
def parseDate (s : String) : Option CivilDate :=
  (parseCivil s.data).bind fun t =>
    if 1 ≤ t.1 ∧ t.2.2 ≤ daysInMonth t.1 t.2.1 then some ⟨t.1, t.2.1, t.2.2⟩
    else none

/-- CPython `datetime._days_before_year`: days between year 1-01-01 and
`y`-01-01 in the proleptic Gregorian calendar. -/
def daysBeforeYear (y : ℕ) : ℕ :=
  365 * (y - 1) + (y - 1) / 4 - (y - 1) / 100 + (y - 1) / 400

/-- CPython `datetime._days_before_month`: days in year `y` before month `m`. -/
def daysBeforeMonth (y m : ℕ) : ℕ :=
  ((List.range (m - 1)).map (fun i => daysInMonth y (i + 1))).sum

/-- CPython `date.toordinal`: day number of a date, with 0001-01-01 as day 1.
Differences of ordinals are exact signed whole-day differences, which is what
`(a - b).days` yields for midnight-aligned datetimes. -/
def CivilDate.toOrdinal (c : CivilDate) : ℕ :=
  daysBeforeYear c.year + daysBeforeMonth c.year c.month + c.day

/-- `strptime` applied to a raw field value: only strings can match
(`strptime` raises `TypeError` on non-strings, caught by the bare `except`). -/
def parseDateValue : Value → Option CivilDate
  | .vStr s => parseDate s
  | _ => none

/-- One guarded date-difference block of `calculate_kpi_fields`: the truthiness
guard `if row.get(k1) and row.get(k2):`, then both `strptime` calls inside
`try`, giving `(date2 - date1).days`; any failure or a failed guard gives
`None`. -/
def dateDelta (row : Record) (k1 k2 : String) : Option ℤ :=
  match getTruthy row k1, getTruthy row k2 with
  | some v1, some v2 =>
    match parseDateValue v1, parseDateValue v2 with
    | some d1, some d2 => some ((d2.toOrdinal : ℤ) - (d1.toOrdinal : ℤ))
    | _, _ => none
  | _, _ => none

/-- The stored field value of a date-difference block: the day count as a
number, or `None`. -/
def deltaValue (row : Record) (k1 k2 : String) : Value :=
  match dateDelta row k1 k2 with
  | some n => .vNum (n : ℚ)
  | none => .vNull

/-- Characters Python's `float(str)` strips from both ends. -/
def isSpaceC (c : Char) : Bool :=
  decide (c = ' ') || decide (c = '\t') || decide (c = '\n') || decide (c = '\r') ||
    decide (c.toNat = 11) || decide (c.toNat = 12)

/-- Strip whitespace from both ends of a character list. -/
def trimChars (l : List Char) : List Char :=
  ((l.dropWhile isSpaceC).reverse.dropWhile isSpaceC).reverse

/-- Python `float(s)` on the stripped characters of a string: optional sign,
digits with an optional fractional part (at least one digit overall), and an
optional exponent; `none` is a raised `ValueError`.  Non-finite literals and
underscore grouping are outside the model. -/
def parseFloatChars (l : List Char) : Option ℚ :=
  let (neg, l1) :=
    match l with
    | '-' :: r => (true, r)
    | '+' :: r => (false, r)
    | _ => (false, l)
  let ip := l1.takeWhile isDigitC
  let l2 := l1.dropWhile isDigitC
  let (fp, l3) :=
    match l2 with
    | '.' :: r => (r.takeWhile isDigitC, r.dropWhile isDigitC)
    | _ => (([] : List Char), l2)
  if ip = [] ∧ fp = [] then none
  else
    let mant : ℚ := (digitsVal ip : ℚ) + (digitsVal fp : ℚ) / ((10 : ℚ) ^ fp.length)
    let signed : ℚ := if neg then -mant else mant
    match l3 with
    | [] => some signed
    | c :: r =>
      if c = 'e' ∨ c = 'E' then
        let (eneg, r1) :=
          match r with
          | '-' :: r2 => (true, r2)
          | '+' :: r2 => (false, r2)
          | _ => (false, r)
        let ed := r1.takeWhile isDigitC
        let rest := r1.dropWhile isDigitC
        if ed = [] ∨ rest ≠ [] then none
        else
          some (if eneg then signed / (10 : ℚ) ^ digitsVal ed
                else signed * (10 : ℚ) ^ digitsVal ed)
      else none

/-- Python `float(v)` on a field value: numbers pass through, strings are
parsed, `float(None)` raises `TypeError` (caught by the bare `except`). -/
def floatValue : Value → Option ℚ
  | .vNum q => some q
  | .vStr s => parseFloatChars (trimChars s.data)
  | .vNull => none

/-- The script's `float(row.get(k, 0) or 0)`: an absent key or a falsy value
coerces to 0; a truthy value goes through `float`, whose failure propagates
to the surrounding `except`. -/
def coerceFloat (row : Record) (k : String) : Option ℚ :=
  match rget row k with
  | none => some 0
  | some v => if truthy v then floatValue v else some 0

/-- Floor of a rational, computed by flooring division of the numerator by
the (positive) denominator. -/
def qfloor (q : ℚ) : ℤ := Int.fdiv q.num q.den

/-- Round to the nearest integer, ties to even, as Python's `round` does on
the exact value. -/
def roundHalfEven (q : ℚ) : ℤ :=
  if q - qfloor q < 1 / 2 then qfloor q
  else if 1 / 2 < q - qfloor q then qfloor q + 1
  else if qfloor q % 2 = 0 then qfloor q else qfloor q + 1

/-- Python `round(x, 2)` on the exact value of `x`. -/
def round2 (q : ℚ) : ℚ := (roundHalfEven (q * 100) : ℚ) / 100

/-- The `percent_shipping_cost` block of `calculate_kpi_fields`: both
coercions inside one `try`, then `round(shipping / total * 100, 2)` when the
total is strictly positive, else 0; any coercion failure gives 0. -/
def pctFrom (row : Record) : Value :=
  match coerceFloat row "shipping_cost", coerceFloat row "order_total" with
  | some sh, some tot =>
    if 0 < tot then .vNum (round2 (sh / tot * 100)) else .vNum 0
  | _, _ => .vNum 0

/-- The `on_time_delivery` block of `calculate_kpi_fields`, reading the
`days_late_early` value the same pass stored just before: `"Pending"` when
`actual_ship_date` fails its truthiness guard or the stored value is `None`,
else `"On Time"` for a non-positive day count and `"Late"` otherwise.  (The
stored value is always a number or `None`; the wildcard arm is unreachable.) -/
def otdFrom (row : Record) : Value :=
  match getTruthy row "actual_ship_date" with
  | some _ =>
    match rget row "days_late_early" with
    | some (Value.vNum n) => if n ≤ 0 then .vStr "On Time" else .vStr "Late"
    | _ => .vStr "Pending"
  | none => .vStr "Pending"

/-- The loop body of `calculate_kpi_fields`: the six derived fields stored
into the row one after the other, each later block reading the row as mutated
by the earlier ones, exactly as the Python code mutates the dict. -/
def enrichRow (row : Record) : Record :=
  let r1 := rset row "days_order_entry"
    (deltaValue row "po_received_date" "transaction_date")
  let r2 := rset r1 "days_order_confirmation"
    (deltaValue r1 "po_received_date" "order_confirmed_date")
  let r3 := rset r2 "days_fulfillment"
    (deltaValue r2 "order_confirmed_date" "actual_ship_date")
  let r4 := rset r3 "days_late_early"
    (deltaValue r3 "target_ship_date" "actual_ship_date")
  let r5 := rset r4 "on_time_delivery" (otdFrom r4)
  rset r5 "percent_shipping_cost" (pctFrom r5)

/-- `calculate_kpi_fields`: every record of the sequence is enriched in place,
independently, and the sequence is returned. -/
def calculate_kpi_fields (data : List Record) : List Record :=
  data.map enrichRow

/-- The written artifact: `metadata.last_updated`, `metadata.record_count`,
and the `data` array. -/
structure Snapshot where
  last_updated : String
  record_count : ℕ
  data : List Record
deriving DecidableEq

/-- `save_to_json`: refuses an empty sequence, otherwise writes the snapshot
with `record_count = len(data)`; `ioOk` is the outcome of the file write
(an I/O exception is caught and reported as failure).  The returned pair is
(return value, file written). -/
def save_to_json (now : String) (data : List Record) (ioOk : Bool) :
    Bool × Option Snapshot :=
  if data.isEmpty then (false, none)
  else if ioOk then (true, some ⟨now, data.length, data⟩) else (false, none)

/-- `main`: fetch (its outcome is `none` for a non-success response or a
transport error, `some items` otherwise), abort with exit 1 when the result
is falsy (`None` or an empty list), else enrich, save, and exit 0 exactly
when saving succeeded.  The result is (exit code, file written). -/
def mainRun (fetchResult : Option (List Record)) (now : String) (ioOk : Bool) :
    ℕ × Option Snapshot :=
  match fetchResult with
  | none => (1, none)
  | some data =>
    if data.isEmpty then (1, none)
    else
      match save_to_json now (calculate_kpi_fields data) ioOk with
      | (true, snap) => (0, snap)
      | (false, _) => (1, none)

/-- The six derived field names `calculate_kpi_fields` stores. -/
def derivedKeys : List String :=
  ["days_order_entry", "days_order_confirmation", "days_fulfillment",
   "days_late_early", "on_time_delivery", "percent_shipping_cost"]

/-- The raw field names the derived-field computations read. -/
def rawFieldKeys : List String :=
  ["transaction_date", "po_received_date", "order_confirmed_date",
   "target_ship_date", "actual_ship_date", "shipping_cost", "order_total"]

/-- Pure per-row value of `on_time_delivery`, reading only raw fields; proved
below to agree with the in-place computation `otdFrom` performed on the
partially mutated row. -/
def otdOf (row : Record) : Value :=
  match getTruthy row "actual_ship_date" with
  | some _ =>
    match dateDelta row "target_ship_date" "actual_ship_date" with
    | some n => if (n : ℚ) ≤ 0 then .vStr "On Time" else .vStr "Late"
    | none => .vStr "Pending"
  | none => .vStr "Pending"

/-- The spec's literal notion of a textually well-formed `YYYY-MM-DD` value:
four digits, a hyphen, two digits, a hyphen, two digits — nothing else.
Stated from the spec's words, to be compared with what the code accepts. -/
def wellFormedISO (s : String) : Bool :=
  match s.data with
  | [y1, y2, y3, y4, '-', m1, m2, '-', d1, d2] =>
    isDigitC y1 && isDigitC y2 && isDigitC y3 && isDigitC y4 &&
      isDigitC m1 && isDigitC m2 && isDigitC d1 && isDigitC d2
  | _ => false

/-- The exact set of strings `strptime(s, "%Y-%m-%d")` plus the `datetime`
constructor accepts: a four-digit year (at least 0001), a hyphen, a one- or
two-digit month 1..12, a hyphen, and a one- or two-digit day from 1 to the
length of that month in that year — zero-padding of month and day optional. -/
def ValidDateStr (s : String) : Prop :=
  ∃ ys ms ds : List Char,
    s.data = ys ++ '-' :: (ms ++ '-' :: ds) ∧
    ys.length = 4 ∧ (∀ c ∈ ys, isDigitC c = true) ∧ 1 ≤ digitsVal ys ∧
    1 ≤ ms.length ∧ ms.length ≤ 2 ∧ (∀ c ∈ ms, isDigitC c = true) ∧
    1 ≤ digitsVal ms ∧ digitsVal ms ≤ 12 ∧
    1 ≤ ds.length ∧ ds.length ≤ 2 ∧ (∀ c ∈ ds, isDigitC c = true) ∧
    1 ≤ digitsVal ds ∧
    digitsVal ds ≤ daysInMonth (digitsVal ys) (digitsVal ms)

/-- The spec's worked example record (§8 of the design document). -/
def sampleRow : Record :=
  [("transaction_id", Value.vNum 101),
   ("sales_order_number", Value.vStr "SO-1001"),
   ("customer_name", Value.vStr "Acme"),
   ("transaction_date", Value.vStr "2024-01-05"),
   ("po_received_date", Value.vStr "2024-01-01"),
   ("order_confirmed_date", Value.vStr "2024-01-02"),
   ("target_ship_date", Value.vStr "2024-01-10"),
   ("actual_ship_date", Value.vStr "2024-01-08"),
   ("shipping_method_name", Value.vStr "Ground"),
   ("shipping_cost", Value.vNum 50),
   ("order_total", Value.vNum 1000),
   ("on_hold_status", Value.vStr "No")]

/-- A record whose `transaction_date` is a date `strptime` accepts although
it is not zero-padded `YYYY-MM-DD`. -/
def lenientDateRow : Record :=
  [("po_received_date", Value.vStr "2024-01-01"),
   ("transaction_date", Value.vStr "2024-1-5")]

/-- A record with a negative shipping cost and a positive total. -/
def negShipRow : Record :=
  [("shipping_cost", Value.vNum (-50)),
   ("order_total", Value.vNum 1000)]

theorem rget_rset (r : Record) (k : String) (v : Value) (k' : String) :
    rget (rset r k v) k' = if k' = k then some v else rget r k' := by
  induction r with
  | nil =>
    rcases eq_or_ne k' k with h | h
    · subst h
      simp [rset, rget]
    · simp only [rset, rget]
      rw [if_neg (Ne.symm h), if_neg h]
  | cons hd tl ih =>
    obtain ⟨a, b⟩ := hd
    simp only [rset]
    rcases eq_or_ne a k with hak | hak
    · subst hak
      rw [if_pos rfl]
      simp only [rget]
      rcases eq_or_ne a k' with h | h
      · subst h
        rw [if_pos rfl, if_pos rfl]
      · rw [if_neg h, if_neg (Ne.symm h), if_neg h]
    · rw [if_neg hak]
      simp only [rget]
      rcases eq_or_ne a k' with h | h
      · subst h
        rw [if_pos rfl, if_neg hak, if_pos rfl]
      · rw [if_neg h, if_neg h, ih]

theorem getTruthy_congr {row row' : Record} {k : String}
    (h : rget row k = rget row' k) : getTruthy row k = getTruthy row' k := by
  simp [getTruthy, h]

theorem dateDelta_congr {row row' : Record} {k1 k2 : String}
    (h1 : rget row k1 = rget row' k1) (h2 : rget row k2 = rget row' k2) :
    dateDelta row k1 k2 = dateDelta row' k1 k2 := by
  unfold dateDelta
  rw [getTruthy_congr h1, getTruthy_congr h2]

theorem deltaValue_congr {row row' : Record} {k1 k2 : String}
    (h1 : rget row k1 = rget row' k1) (h2 : rget row k2 = rget row' k2) :
    deltaValue row k1 k2 = deltaValue row' k1 k2 := by
  unfold deltaValue
  rw [dateDelta_congr h1 h2]

theorem coerceFloat_congr {row row' : Record} {k : String}
    (h : rget row k = rget row' k) : coerceFloat row k = coerceFloat row' k := by
  unfold coerceFloat
  rw [h]

theorem pctFrom_congr {row row' : Record}
    (h1 : rget row "shipping_cost" = rget row' "shipping_cost")
    (h2 : rget row "order_total" = rget row' "order_total") :
    pctFrom row = pctFrom row' := by
  unfold pctFrom
  rw [coerceFloat_congr h1, coerceFloat_congr h2]

theorem otdOf_congr {row row' : Record}
    (h1 : rget row "target_ship_date" = rget row' "target_ship_date")
    (h2 : rget row "actual_ship_date" = rget row' "actual_ship_date") :
    otdOf row = otdOf row' := by
  unfold otdOf
  rw [getTruthy_congr h2, dateDelta_congr h1 h2]

theorem deltaValue_rset_ne {k1 k2 k : String} (h1 : k1 ≠ k) (h2 : k2 ≠ k)
    (r : Record) (v : Value) :
    deltaValue (rset r k v) k1 k2 = deltaValue r k1 k2 :=
  deltaValue_congr (by simp [rget_rset, h1]) (by simp [rget_rset, h2])

theorem enrich_rget_doe (row : Record) :
    rget (enrichRow row) "days_order_entry"
      = some (deltaValue row "po_received_date" "transaction_date") := by
  simp [enrichRow, rget_rset]

theorem enrich_rget_doc (row : Record) :
    rget (enrichRow row) "days_order_confirmation"
      = some (deltaValue row "po_received_date" "order_confirmed_date") := by
  simp [enrichRow, rget_rset, deltaValue_rset_ne]

theorem enrich_rget_df (row : Record) :
    rget (enrichRow row) "days_fulfillment"
      = some (deltaValue row "order_confirmed_date" "actual_ship_date") := by
  simp [enrichRow, rget_rset, deltaValue_rset_ne]

theorem enrich_rget_dle (row : Record) :
    rget (enrichRow row) "days_late_early"
      = some (deltaValue row "target_ship_date" "actual_ship_date") := by
  simp [enrichRow, rget_rset, deltaValue_rset_ne]

theorem otdFrom_eq {row r : Record}
    (ha : getTruthy r "actual_ship_date" = getTruthy row "actual_ship_date")
    (hd : rget r "days_late_early"
      = some (deltaValue row "target_ship_date" "actual_ship_date")) :
    otdFrom r = otdOf row := by
  unfold otdFrom otdOf
  rw [ha, hd]
  cases hga : getTruthy row "actual_ship_date" with
  | none => rfl
  | some v =>
    cases hdd : dateDelta row "target_ship_date" "actual_ship_date" with
    | none => simp [deltaValue, hdd]
    | some n => simp [deltaValue, hdd]

theorem enrich_rget_otd (row : Record) :
    rget (enrichRow row) "on_time_delivery" = some (otdOf row) := by
  simp only [enrichRow]
  rw [rget_rset, if_neg (by decide), rget_rset, if_pos rfl]
  refine congrArg some (otdFrom_eq ?_ ?_)
  · exact getTruthy_congr (by simp [rget_rset])
  · simp [rget_rset, deltaValue_rset_ne]

theorem enrich_rget_pct (row : Record) :
    rget (enrichRow row) "percent_shipping_cost" = some (pctFrom row) := by
  simp only [enrichRow]
  rw [rget_rset, if_pos rfl]
  exact congrArg some (pctFrom_congr (by simp [rget_rset]) (by simp [rget_rset]))

theorem enrich_rget_other (row : Record) (k : String) (hk : ¬ k ∈ derivedKeys) :
    rget (enrichRow row) k = rget row k := by
  simp only [derivedKeys, List.mem_cons, List.not_mem_nil, or_false] at hk
  push_neg at hk
  obtain ⟨h1, h2, h3, h4, h5, h6⟩ := hk
  simp [enrichRow, rget_rset, h1, h2, h3, h4, h5, h6]

theorem dateDelta_none_right {row : Record} {k1 k2 : String}
    (hg : getTruthy row k2 = none) : dateDelta row k1 k2 = none := by
  unfold dateDelta
  rw [hg]
  cases getTruthy row k1 <;> rfl

theorem dateDelta_some_actual {row : Record} {k1 k2 : String} {n : ℤ}
    (h : dateDelta row k1 k2 = some n) : getTruthy row k2 ≠ none := by
  intro hg
  rw [dateDelta_none_right hg] at h
  exact Option.noConfusion h

theorem deltaValue_num {row : Record} {k1 k2 : String} {s1 s2 : String}
    {d1 d2 : CivilDate}
    (h1 : getTruthy row k1 = some (Value.vStr s1)) (hp1 : parseDate s1 = some d1)
    (h2 : getTruthy row k2 = some (Value.vStr s2)) (hp2 : parseDate s2 = some d2) :
    deltaValue row k1 k2
      = Value.vNum (((d2.toOrdinal : ℤ) - (d1.toOrdinal : ℤ) : ℤ) : ℚ) := by
  unfold deltaValue dateDelta
  rw [h1, h2]
  simp [parseDateValue, hp1, hp2]

theorem deltaValue_null {row : Record} {k1 k2 : String}
    (h : (¬ ∃ s d, getTruthy row k1 = some (Value.vStr s) ∧ parseDate s = some d) ∨
         (¬ ∃ s d, getTruthy row k2 = some (Value.vStr s) ∧ parseDate s = some d)) :
    deltaValue row k1 k2 = Value.vNull := by
  have hn : dateDelta row k1 k2 = none := by
    unfold dateDelta
    cases hg1 : getTruthy row k1 with
    | none => cases getTruthy row k2 <;> rfl
    | some v1 =>
      cases hg2 : getTruthy row k2 with
      | none => rfl
      | some v2 =>
        have hpd : parseDateValue v1 = none ∨ parseDateValue v2 = none := by
          rcases h with h | h
          · left
            cases v1 with
            | vStr s =>
              cases hp : parseDate s with
              | none => simpa [parseDateValue] using hp
              | some d => exact absurd ⟨s, d, hg1, hp⟩ h
            | vNum q => rfl
            | vNull => rfl
          · right
            cases v2 with
            | vStr s =>
              cases hp : parseDate s with
              | none => simpa [parseDateValue] using hp
              | some d => exact absurd ⟨s, d, hg2, hp⟩ h
            | vNum q => rfl
            | vNull => rfl
        rcases hpd with hp | hp
        · cases hq : parseDateValue v2 <;> simp [hp, hq]
        · cases hq : parseDateValue v1 <;> simp [hp, hq]
  unfold deltaValue
  rw [hn]

/-- C1: for every record in which both `po_received_date` and
`transaction_date` are present (truthy) and parse as ISO `YYYY-MM-DD` dates,
the enricher sets `days_order_entry` to the exact signed whole-day difference
(transaction date minus PO-received date, as a difference of day ordinals);
for every record in which either field is missing or malformed, it sets
`days_order_entry` to null. -/
theorem c1_days_order_entry (row : Record) :
    (∀ s1 s2 d1 d2,
        getTruthy row "po_received_date" = some (Value.vStr s1) →
        parseDate s1 = some d1 →
        getTruthy row "transaction_date" = some (Value.vStr s2) →
        parseDate s2 = some d2 →
        rget (enrichRow row) "days_order_entry"
          = some (Value.vNum (((d2.toOrdinal : ℤ) - (d1.toOrdinal : ℤ) : ℤ) : ℚ))) ∧
    (((¬ ∃ s d, getTruthy row "po_received_date" = some (Value.vStr s) ∧
          parseDate s = some d) ∨
      (¬ ∃ s d, getTruthy row "transaction_date" = some (Value.vStr s) ∧
          parseDate s = some d)) →
      rget (enrichRow row) "days_order_entry" = some Value.vNull) := by
  constructor
  · intro s1 s2 d1 d2 h1 hp1 h2 hp2
    rw [enrich_rget_doe, deltaValue_num h1 hp1 h2 hp2]
  · intro h
    rw [enrich_rget_doe, deltaValue_null h]

/-- C2: `on_time_delivery` is `"Pending"` whenever `actual_ship_date` is
absent (missing, null or empty); it is `"On Time"` iff the record's
`days_late_early` is non-null and at most 0, and `"Late"` iff non-null and
positive. -/
theorem c2_on_time_delivery (row : Record) :
    (getTruthy row "actual_ship_date" = none →
      rget (enrichRow row) "on_time_delivery" = some (Value.vStr "Pending")) ∧
    (rget (enrichRow row) "on_time_delivery" = some (Value.vStr "On Time") ↔
      ∃ n : ℚ, rget (enrichRow row) "days_late_early" = some (Value.vNum n) ∧
        n ≤ 0) ∧
    (rget (enrichRow row) "on_time_delivery" = some (Value.vStr "Late") ↔
      ∃ n : ℚ, rget (enrichRow row) "days_late_early" = some (Value.vNum n) ∧
        0 < n) := by
  rw [enrich_rget_otd, enrich_rget_dle]
  unfold otdOf
  cases hga : getTruthy row "actual_ship_date" with
  | none =>
    rw [deltaValue_null]
    · simp
    · right
      rintro ⟨s, d, hs, _⟩
      rw [hga] at hs
      exact Option.noConfusion hs
  | some v =>
    cases hdd : dateDelta row "target_ship_date" "actual_ship_date" with
    | none => simp [deltaValue, hdd]
    | some n =>
      by_cases hn : (n : ℚ) ≤ 0
      · simp [deltaValue, hdd, hn]
        exact_mod_cast hn
      · constructor
        · simp
        constructor
        · simp [deltaValue, hdd, hn]
        · simp [deltaValue, hdd, hn, lt_of_not_le hn]

/-- C10: a record's `on_time_delivery` is `"Pending"` exactly when its
`days_late_early` is null; it is never `"On Time"` or `"Late"` with a null
`days_late_early`, and never `"Pending"` with a numeric one. -/
theorem c10_pending_iff_null (row : Record) :
    rget (enrichRow row) "on_time_delivery" = some (Value.vStr "Pending") ↔
      rget (enrichRow row) "days_late_early" = some Value.vNull := by
  rw [enrich_rget_otd, enrich_rget_dle]
  unfold otdOf
  cases hga : getTruthy row "actual_ship_date" with
  | none =>
    rw [deltaValue_null]
    · simp
    · right
      rintro ⟨s, d, hs, _⟩
      rw [hga] at hs
      exact Option.noConfusion hs
  | some v =>
    cases hdd : dateDelta row "target_ship_date" "actual_ship_date" with
    | none => simp [deltaValue, hdd]
    | some n =>
      by_cases hn : (n : ℚ) ≤ 0 <;> simp [deltaValue, hdd, hn]

theorem deltaValue_shape (row : Record) (k1 k2 : String) :
    deltaValue row k1 k2 = Value.vNull ∨
      ∃ n : ℚ, deltaValue row k1 k2 = Value.vNum n := by
  unfold deltaValue
  cases dateDelta row k1 k2 with
  | none => exact Or.inl rfl
  | some n => exact Or.inr ⟨(n : ℚ), rfl⟩

theorem otdOf_shape (row : Record) :
    otdOf row = Value.vStr "On Time" ∨ otdOf row = Value.vStr "Late" ∨
      otdOf row = Value.vStr "Pending" := by
  unfold otdOf
  cases getTruthy row "actual_ship_date" with
  | none => exact Or.inr (Or.inr rfl)
  | some v =>
    cases dateDelta row "target_ship_date" "actual_ship_date" with
    | none => exact Or.inr (Or.inr rfl)
    | some n =>
      by_cases hn : (n : ℚ) ≤ 0
      · exact Or.inl (by simp [hn])
      · exact Or.inr (Or.inl (by simp [hn]))

theorem pctFrom_shape (row : Record) : ∃ q : ℚ, pctFrom row = Value.vNum q := by
  unfold pctFrom
  cases coerceFloat row "shipping_cost" with
  | none => cases coerceFloat row "order_total" <;> exact ⟨0, rfl⟩
  | some sh =>
    cases coerceFloat row "order_total" with
    | none => exact ⟨0, rfl⟩
    | some tot =>
      by_cases h : 0 < tot
      · exact ⟨round2 (sh / tot * 100), by simp [h]⟩
      · exact ⟨0, by simp [h]⟩

/-- C5: enrichment is total (the embedding is a total function: every guard
failure or parse failure lands in a fallback), every enriched record carries
all six derived fields — the four day counts as a number or null, the
delivery status as one of the three status strings, the percentage as a
number — and each derived field is a function of only its own raw input
fields, while each output record depends only on the corresponding input
record of the sequence. -/
theorem c5_guarded_totality (row : Record) :
    ((rget (enrichRow row) "days_order_entry" = some Value.vNull ∨
        ∃ n : ℚ, rget (enrichRow row) "days_order_entry" = some (Value.vNum n)) ∧
     (rget (enrichRow row) "days_order_confirmation" = some Value.vNull ∨
        ∃ n : ℚ, rget (enrichRow row) "days_order_confirmation" = some (Value.vNum n)) ∧
     (rget (enrichRow row) "days_fulfillment" = some Value.vNull ∨
        ∃ n : ℚ, rget (enrichRow row) "days_fulfillment" = some (Value.vNum n)) ∧
     (rget (enrichRow row) "days_late_early" = some Value.vNull ∨
        ∃ n : ℚ, rget (enrichRow row) "days_late_early" = some (Value.vNum n)) ∧
     (rget (enrichRow row) "on_time_delivery" = some (Value.vStr "On Time") ∨
        rget (enrichRow row) "on_time_delivery" = some (Value.vStr "Late") ∨
        rget (enrichRow row) "on_time_delivery" = some (Value.vStr "Pending")) ∧
     (∃ q : ℚ, rget (enrichRow row) "percent_shipping_cost" = some (Value.vNum q))) ∧
    ((∀ row' : Record,
        rget row "po_received_date" = rget row' "po_received_date" →
        rget row "transaction_date" = rget row' "transaction_date" →
        rget (enrichRow row) "days_order_entry"
          = rget (enrichRow row') "days_order_entry") ∧
     (∀ row' : Record,
        rget row "po_received_date" = rget row' "po_received_date" →
        rget row "order_confirmed_date" = rget row' "order_confirmed_date" →
        rget (enrichRow row) "days_order_confirmation"
          = rget (enrichRow row') "days_order_confirmation") ∧
     (∀ row' : Record,
        rget row "order_confirmed_date" = rget row' "order_confirmed_date" →
        rget row "actual_ship_date" = rget row' "actual_ship_date" →
        rget (enrichRow row) "days_fulfillment"
          = rget (enrichRow row') "days_fulfillment") ∧
     (∀ row' : Record,
        rget row "target_ship_date" = rget row' "target_ship_date" →
        rget row "actual_ship_date" = rget row' "actual_ship_date" →
        rget (enrichRow row) "days_late_early"
          = rget (enrichRow row') "days_late_early") ∧
     (∀ row' : Record,
        rget row "target_ship_date" = rget row' "target_ship_date" →
        rget row "actual_ship_date" = rget row' "actual_ship_date" →
        rget (enrichRow row) "on_time_delivery"
          = rget (enrichRow row') "on_time_delivery") ∧
     (∀ row' : Record,
        rget row "shipping_cost" = rget row' "shipping_cost" →
        rget row "order_total" = rget row' "order_total" →
        rget (enrichRow row) "percent_shipping_cost"
          = rget (enrichRow row') "percent_shipping_cost")) ∧
    (∀ (data : List Record) (i : ℕ),
        (calculate_kpi_fields data)[i]? = (data[i]?).map enrichRow) := by
  refine ⟨⟨?_, ?_, ?_, ?_, ?_, ?_⟩, ⟨?_, ?_, ?_, ?_, ?_, ?_⟩, ?_⟩
  · rw [enrich_rget_doe]
    rcases deltaValue_shape row "po_received_date" "transaction_date" with h | ⟨n, h⟩
    · exact Or.inl (by rw [h])
    · exact Or.inr ⟨n, by rw [h]⟩
  · rw [enrich_rget_doc]
    rcases deltaValue_shape row "po_received_date" "order_confirmed_date" with h | ⟨n, h⟩
    · exact Or.inl (by rw [h])
    · exact Or.inr ⟨n, by rw [h]⟩
  · rw [enrich_rget_df]
    rcases deltaValue_shape row "order_confirmed_date" "actual_ship_date" with h | ⟨n, h⟩
    · exact Or.inl (by rw [h])
    · exact Or.inr ⟨n, by rw [h]⟩
  · rw [enrich_rget_dle]
    rcases deltaValue_shape row "target_ship_date" "actual_ship_date" with h | ⟨n, h⟩
    · exact Or.inl (by rw [h])
    · exact Or.inr ⟨n, by rw [h]⟩
  · rw [enrich_rget_otd]
    rcases otdOf_shape row with h | h | h
    · exact Or.inl (by rw [h])
    · exact Or.inr (Or.inl (by rw [h]))
    · exact Or.inr (Or.inr (by rw [h]))
  · rw [enrich_rget_pct]
    obtain ⟨q, h⟩ := pctFrom_shape row
    exact ⟨q, by rw [h]⟩
  · intro row' h1 h2
    rw [enrich_rget_doe, enrich_rget_doe]
    exact congrArg some (deltaValue_congr h1 h2)
  · intro row' h1 h2
    rw [enrich_rget_doc, enrich_rget_doc]
    exact congrArg some (deltaValue_congr h1 h2)
  · intro row' h1 h2
    rw [enrich_rget_df, enrich_rget_df]
    exact congrArg some (deltaValue_congr h1 h2)
  · intro row' h1 h2
    rw [enrich_rget_dle, enrich_rget_dle]
    exact congrArg some (deltaValue_congr h1 h2)
  · intro row' h1 h2
    rw [enrich_rget_otd, enrich_rget_otd]
    exact congrArg some (otdOf_congr h1 h2)
  · intro row' h1 h2
    rw [enrich_rget_pct, enrich_rget_pct]
    exact congrArg some (pctFrom_congr h1 h2)
  · intro data i
    simp [calculate_kpi_fields]

/-- C6: enrichment is idempotent — every derived field of a re-enriched
record equals that derived field of the once-enriched record, because each
derived field is a function of raw fields only and enrichment writes only
derived fields. -/
theorem c6_idempotent (row : Record) (k : String) (hk : k ∈ derivedKeys) :
    rget (enrichRow (enrichRow row)) k = rget (enrichRow row) k := by
  have hag : ∀ k' ∈ rawFieldKeys, rget (enrichRow row) k' = rget row k' := by
    intro k' hk'
    fin_cases hk' <;> exact enrich_rget_other row _ (by decide)
  fin_cases hk
  · rw [enrich_rget_doe, enrich_rget_doe,
      deltaValue_congr (hag _ (by decide)) (hag _ (by decide))]
  · rw [enrich_rget_doc, enrich_rget_doc,
      deltaValue_congr (hag _ (by decide)) (hag _ (by decide))]
  · rw [enrich_rget_df, enrich_rget_df,
      deltaValue_congr (hag _ (by decide)) (hag _ (by decide))]
  · rw [enrich_rget_dle, enrich_rget_dle,
      deltaValue_congr (hag _ (by decide)) (hag _ (by decide))]
  · rw [enrich_rget_otd, enrich_rget_otd,
      otdOf_congr (hag _ (by decide)) (hag _ (by decide))]
  · rw [enrich_rget_pct, enrich_rget_pct,
      pctFrom_congr (hag _ (by decide)) (hag _ (by decide))]

theorem c6_idempotent_witness :
    rget (enrichRow (enrichRow sampleRow)) "days_order_entry"
      = rget (enrichRow sampleRow) "days_order_entry" :=
  c6_idempotent sampleRow "days_order_entry" (by decide)

/-- C7: enrichment changes no field outside the six derived names, the
enriched sequence has the same length as the input and its i-th record is
the enrichment of the i-th input record (same relative order), and the
persisted snapshot carries the enriched sequence unchanged. -/
theorem c7_frame_preservation (data : List Record) :
    ((calculate_kpi_fields data).length = data.length) ∧
    (∀ i : ℕ, (calculate_kpi_fields data)[i]? = (data[i]?).map enrichRow) ∧
    (∀ (r : Record) (k : String), ¬ k ∈ derivedKeys →
        rget (enrichRow r) k = rget r k) ∧
    (∀ (now : String) (ioOk : Bool) (snap : Snapshot),
        (save_to_json now data ioOk).2 = some snap → snap.data = data) := by
  refine ⟨by simp [calculate_kpi_fields], by intro i; simp [calculate_kpi_fields],
    fun r k hk => enrich_rget_other r k hk, ?_⟩
  intro now ioOk snap h
  unfold save_to_json at h
  by_cases he : data.isEmpty = true
  · rw [if_pos he] at h
    exact Option.noConfusion h
  · rw [if_neg he] at h
    cases ioOk with
    | false => simp at h
    | true =>
      simp only [if_true] at h
      rw [← Option.some.inj h]

/-- C8: whenever `save_to_json` persists a snapshot, the snapshot's
`record_count` equals the length of its `data` array. -/
theorem c8_record_count (now : String) (data : List Record) (ioOk : Bool)
    (snap : Snapshot) (h : (save_to_json now data ioOk).2 = some snap) :
    snap.record_count = snap.data.length := by
  unfold save_to_json at h
  by_cases he : data.isEmpty = true
  · rw [if_pos he] at h
    exact Option.noConfusion h
  · rw [if_neg he] at h
    cases ioOk with
    | false => simp at h
    | true =>
      simp only [if_true] at h
      rw [← Option.some.inj h]

theorem c8_record_count_witness :
    (Snapshot.mk "2024-01-01 00:00:00" 1 [sampleRow]).record_count
      = (Snapshot.mk "2024-01-01 00:00:00" 1 [sampleRow]).data.length :=
  c8_record_count "2024-01-01 00:00:00" [sampleRow] true
    (Snapshot.mk "2024-01-01 00:00:00" 1 [sampleRow]) (by rfl)

/-- C9: the run exits 0 iff the fetch produced a non-empty record list and
the write succeeded; a failed fetch aborts with exit 1 and no file written
(before any enrichment or write), and a zero-record fetch or a failed write
also exits non-zero. -/
theorem c9_exit_contract (fetchResult : Option (List Record)) (now : String)
    (ioOk : Bool) :
    ((mainRun fetchResult now ioOk).1 = 0 ↔
      ∃ data, fetchResult = some data ∧ data ≠ [] ∧ ioOk = true) ∧
    (fetchResult = none → mainRun fetchResult now ioOk = (1, none)) ∧
    (∀ data, fetchResult = some data → data = [] ∨ ioOk = false →
      (mainRun fetchResult now ioOk).1 ≠ 0) := by
  cases fetchResult with
  | none => simp [mainRun]
  | some data =>
    cases data with
    | nil => simp [mainRun]
    | cons a l =>
      cases ioOk with
      | true => simp [mainRun, save_to_json, calculate_kpi_fields]
      | false => simp [mainRun, save_to_json, calculate_kpi_fields]

theorem qfloor_nonneg (q : ℚ) (h : 0 ≤ q) : 0 ≤ qfloor q :=
  Int.fdiv_nonneg (Rat.num_nonneg.mpr h) (Int.ofNat_nonneg q.den)

theorem roundHalfEven_nonneg (q : ℚ) (h : 0 ≤ q) : 0 ≤ roundHalfEven q := by
  have hf := qfloor_nonneg q h
  unfold roundHalfEven
  split_ifs <;> omega

theorem round2_nonneg (q : ℚ) (h : 0 ≤ q) : 0 ≤ round2 q := by
  unfold round2
  have h1 := roundHalfEven_nonneg (q * 100) (by positivity)
  have h2 : (0 : ℚ) ≤ (roundHalfEven (q * 100) : ℚ) := by exact_mod_cast h1
  positivity

/-- C3 (amended): `percent_shipping_cost` is always a number; it equals
`round(shipping / total * 100, 2)` whenever both coercions succeed and the
total is strictly positive, it is exactly 0 whenever either coercion fails
(non-numeric value) or the coerced total is not strictly positive (absent,
falsy or non-positive), and it is non-negative whenever the coerced shipping
cost is non-negative — a negative `shipping_cost` produces a negative
percentage. -/
theorem c3_percent_shipping (row : Record) :
    (∀ sh tot : ℚ, coerceFloat row "shipping_cost" = some sh →
        coerceFloat row "order_total" = some tot → 0 < tot →
        rget (enrichRow row) "percent_shipping_cost"
          = some (Value.vNum (round2 (sh / tot * 100)))) ∧
    ((coerceFloat row "shipping_cost" = none ∨
      coerceFloat row "order_total" = none ∨
      (∃ tot, coerceFloat row "order_total" = some tot ∧ tot ≤ 0)) →
      rget (enrichRow row) "percent_shipping_cost" = some (Value.vNum 0)) ∧
    (∀ sh : ℚ, coerceFloat row "shipping_cost" = some sh → 0 ≤ sh →
      ∃ q : ℚ, rget (enrichRow row) "percent_shipping_cost"
          = some (Value.vNum q) ∧ 0 ≤ q) := by
  rw [enrich_rget_pct]
  refine ⟨?_, ?_, ?_⟩
  · intro sh tot hsh htot hpos
    unfold pctFrom
    rw [hsh, htot]
    simp [hpos]
  · intro h
    unfold pctFrom
    rcases h with h | h | ⟨tot, htot, hle⟩
    · rw [h]
    · cases hsh : coerceFloat row "shipping_cost" <;> rw [h]
    · cases hsh : coerceFloat row "shipping_cost" with
      | none => rw [htot]
      | some sh =>
        rw [htot]
        simp [not_lt.mpr hle]
  · intro sh hsh hpos
    unfold pctFrom
    rw [hsh]
    cases htot : coerceFloat row "order_total" with
    | none => exact ⟨0, rfl, le_refl 0⟩
    | some tot =>
      by_cases hp : 0 < tot
      · refine ⟨round2 (sh / tot * 100), by simp [hp], ?_⟩
        exact round2_nonneg _ (mul_nonneg (div_nonneg hpos hp.le) (by norm_num))
      · exact ⟨0, by simp [hp], le_refl 0⟩

/-- C3 counterexample: a record with `shipping_cost = -50` and
`order_total = 1000` gets `percent_shipping_cost = -5`, a negative number,
refuting the claim that the field is always a non-negative-or-zero number. -/
theorem c3_percent_counterexample :
    rget (enrichRow negShipRow) "percent_shipping_cost"
      = some (Value.vNum (-5)) ∧ (-5 : ℚ) < 0 := by
  constructor
  · have hsh : coerceFloat negShipRow "shipping_cost" = some (-50) := by decide
    have htot : coerceFloat negShipRow "order_total" = some 1000 := by decide
    have h1 : (-5 : ℚ) * 100 = -500 := by norm_num
    have h2 : qfloor (-500 : ℚ) = -500 := by decide
    have hval : round2 (-5 : ℚ) = -5 := by
      rw [round2, h1, roundHalfEven, h2]
      norm_num
    rw [enrich_rget_pct]
    unfold pctFrom
    rw [hsh, htot]
    norm_num [hval]
  · norm_num

theorem c3_percent_witness :
    rget (enrichRow sampleRow) "percent_shipping_cost"
      = some (Value.vNum 5) := by
  have h := (c3_percent_shipping sampleRow).1 50 1000 (by decide) (by decide)
    (by norm_num)
  rw [h]
  refine congrArg some (congrArg Value.vNum ?_)
  have h1 : (50 : ℚ) / 1000 * 100 * 100 = 500 := by norm_num
  rw [round2, h1]
  have h2 : qfloor (500 : ℚ) = 500 := by decide
  rw [roundHalfEven, h2]
  norm_num

theorem isDigitC_iff {c : Char} : isDigitC c = true ↔ 48 ≤ c.toNat ∧ c.toNat ≤ 57 := by
  simp [isDigitC]

theorem dval_lt_ten {c : Char} (h : isDigitC c = true) : dval c < 10 := by
  obtain ⟨h1, h2⟩ := isDigitC_iff.mp h
  unfold dval
  omega

theorem digitsVal_one (c : Char) : digitsVal [c] = dval c := by
  simp [digitsVal, List.foldl]

theorem digitsVal_two (c1 c2 : Char) :
    digitsVal [c1, c2] = 10 * dval c1 + dval c2 := by
  simp [digitsVal, List.foldl]

theorem digitsVal_four (a b c d : Char) :
    digitsVal [a, b, c, d]
      = 1000 * dval a + 100 * dval b + 10 * dval c + dval d := by
  simp [digitsVal, List.foldl]
  ring

theorem daysInMonth_le (y m : ℕ) : daysInMonth y m ≤ 31 := by
  unfold daysInMonth
  split_ifs <;> omega

theorem expectDash_eq_some {l r : List Char} :
    expectDash l = some r ↔ l = '-' :: r := by
  cases l with
  | nil => simp [expectDash]
  | cons c tl =>
    by_cases hc : c = '-'
    · subst hc
      simp [expectDash]
    · simp [expectDash, hc]

theorem readYear_sound {l : List Char} {y : ℕ} {r : List Char}
    (h : readYear l = some (y, r)) :
    ∃ ys, l = ys ++ r ∧ ys.length = 4 ∧ (∀ c ∈ ys, isDigitC c = true) ∧
      digitsVal ys = y := by
  rcases l with _ | ⟨a, l⟩
  · simp [readYear] at h
  rcases l with _ | ⟨b, l⟩
  · simp [readYear] at h
  rcases l with _ | ⟨c, l⟩
  · simp [readYear] at h
  rcases l with _ | ⟨d, rest⟩
  · simp [readYear] at h
  simp only [readYear] at h
  split_ifs at h with hc
  · obtain ⟨ha, hb, hcc, hdd⟩ := hc
    rw [Option.some.injEq, Prod.mk.injEq] at h
    obtain ⟨hy, hr⟩ := h
    subst hy
    subst hr
    refine ⟨[a, b, c, d], by simp, rfl, ?_, by rw [digitsVal_four]⟩
    intro x hx
    simp at hx
    rcases hx with rfl | rfl | rfl | rfl <;> assumption

theorem readYear_complete {ys r : List Char} (h4 : ys.length = 4)
    (hd : ∀ c ∈ ys, isDigitC c = true) :
    readYear (ys ++ r) = some (digitsVal ys, r) := by
  rcases ys with _ | ⟨a, _ | ⟨b, _ | ⟨c, _ | ⟨d, _ | ⟨e, tl⟩⟩⟩⟩⟩ <;> simp at h4
  have ha := hd a (by simp)
  have hb := hd b (by simp)
  have hc := hd c (by simp)
  have hdd := hd d (by simp)
  simp [readYear, ha, hb, hc, hdd, digitsVal_four]

theorem readMonth_sound {l : List Char} {m : ℕ} {r : List Char}
    (h : readMonth l = some (m, r)) :
    ∃ ms, l = ms ++ r ∧ 1 ≤ ms.length ∧ ms.length ≤ 2 ∧
      (∀ c ∈ ms, isDigitC c = true) ∧ digitsVal ms = m ∧ 1 ≤ m ∧ m ≤ 12 := by
  rcases l with _ | ⟨c1, l⟩
  · simp [readMonth] at h
  rcases l with _ | ⟨c2, rest⟩
  · simp only [readMonth] at h
    split_ifs at h with hc
    rw [Option.some.injEq, Prod.mk.injEq] at h
    obtain ⟨hm, hr⟩ := h
    subst hm
    subst hr
    have h10 := dval_lt_ten hc.1
    refine ⟨[c1], by simp, by simp, by simp, ?_, digitsVal_one c1, hc.2, by omega⟩
    intro x hx
    simp at hx
    subst hx
    exact hc.1
  · simp only [readMonth] at h
    split_ifs at h with h1 h2 h3
    · rw [Option.some.injEq, Prod.mk.injEq] at h
      obtain ⟨hm, hr⟩ := h
      subst hm
      subst hr
      obtain ⟨ha, hb, hc, hd⟩ := h1
      refine ⟨[c1, c2], by simp, by simp, by simp, ?_, ?_, by omega, by omega⟩
      · intro x hx
        simp at hx
        rcases hx with rfl | rfl <;> assumption
      · rw [digitsVal_two, hc]
    · rw [Option.some.injEq, Prod.mk.injEq] at h
      obtain ⟨hm, hr⟩ := h
      subst hm
      subst hr
      obtain ⟨ha, hb, hc, hd⟩ := h2
      have h10 := dval_lt_ten hb
      refine ⟨[c1, c2], by simp, by simp, by simp, ?_, ?_, by omega, by omega⟩
      · intro x hx
        simp at hx
        rcases hx with rfl | rfl <;> assumption
      · rw [digitsVal_two, hc]
        omega
    · rw [Option.some.injEq, Prod.mk.injEq] at h
      obtain ⟨hm, hr⟩ := h
      subst hm
      subst hr
      obtain ⟨ha, hb⟩ := h3
      have h10 := dval_lt_ten ha
      refine ⟨[c1], by simp, by simp, by simp, ?_, digitsVal_one c1, hb, by omega⟩
      intro x hx
      simp at hx
      subst hx
      exact ha

theorem readMonth_complete {ms r : List Char} {c : Char}
    (hcd : isDigitC c = false)
    (hlen1 : 1 ≤ ms.length) (hlen2 : ms.length ≤ 2)
    (hd : ∀ x ∈ ms, isDigitC x = true)
    (hv1 : 1 ≤ digitsVal ms) (hv2 : digitsVal ms ≤ 12) :
    readMonth (ms ++ c :: r) = some (digitsVal ms, c :: r) := by
  rcases ms with _ | ⟨x, _ | ⟨y, _ | ⟨z, tl⟩⟩⟩
  · simp [digitsVal, List.foldl] at hv1
  · have hx := hd x (by simp)
    rw [digitsVal_one] at hv1 ⊢
    simp only [List.cons_append, List.nil_append, readMonth]
    split_ifs with h1 h2 h3
    · exact absurd h1.2.1 (by simp [hcd])
    · exact absurd h2.2.1 (by simp [hcd])
    · rfl
    · exact absurd ⟨hx, hv1⟩ h3
  · have hx := hd x (by simp)
    have hy := hd y (by simp)
    have hx10 := dval_lt_ten hx
    have hy10 := dval_lt_ten hy
    rw [digitsVal_two] at hv1 hv2 ⊢
    simp only [List.cons_append, List.nil_append, readMonth]
    split_ifs with h1 h2 h3
    · obtain ⟨_, _, hx1, _⟩ := h1
      rw [hx1]
    · obtain ⟨_, _, hx0, _⟩ := h2
      rw [hx0]
      norm_num
    · exfalso
      rcases Nat.lt_or_ge (dval x) 2 with hlt | hge
      · rcases Nat.eq_zero_or_pos (dval x) with hx0 | hx1
        · exact h2 ⟨hx, hy, hx0, by omega⟩
        · exact h1 ⟨hx, hy, by omega, by omega⟩
      · omega
    · exfalso
      rcases Nat.eq_zero_or_pos (dval x) with hx0 | hx1
      · exact h2 ⟨hx, hy, hx0, by omega⟩
      · exact h3 ⟨hx, hx1⟩
  · simp at hlen2

theorem readDay_sound {l : List Char} {d : ℕ} {r : List Char}
    (h : readDay l = some (d, r)) :
    ∃ ds, l = ds ++ r ∧ 1 ≤ ds.length ∧ ds.length ≤ 2 ∧
      (∀ c ∈ ds, isDigitC c = true) ∧ digitsVal ds = d ∧ 1 ≤ d := by
  rcases l with _ | ⟨c1, l⟩
  · simp [readDay] at h
  rcases l with _ | ⟨c2, rest⟩
  · simp only [readDay] at h
    split_ifs at h with hc
    rw [Option.some.injEq, Prod.mk.injEq] at h
    obtain ⟨hm, hr⟩ := h
    subst hm
    subst hr
    refine ⟨[c1], by simp, by simp, by simp, ?_, digitsVal_one c1, hc.2⟩
    intro x hx
    simp at hx
    subst hx
    exact hc.1
  · simp only [readDay] at h
    split_ifs at h with h1 h2 h3 h4
    · rw [Option.some.injEq, Prod.mk.injEq] at h
      obtain ⟨hm, hr⟩ := h
      subst hm
      subst hr
      obtain ⟨ha, hb, hc, hd⟩ := h1
      refine ⟨[c1, c2], by simp, by simp, by simp, ?_, ?_, by omega⟩
      · intro x hx
        simp at hx
        rcases hx with rfl | rfl <;> assumption
      · rw [digitsVal_two, hc]
    · rw [Option.some.injEq, Prod.mk.injEq] at h
      obtain ⟨hm, hr⟩ := h
      subst hm
      subst hr
      obtain ⟨ha, hb, hc⟩ := h2
      refine ⟨[c1, c2], by simp, by simp, by simp, ?_, digitsVal_two c1 c2,
        by omega⟩
      intro x hx
      simp at hx
      rcases hx with rfl | rfl <;> assumption
    · rw [Option.some.injEq, Prod.mk.injEq] at h
      obtain ⟨hm, hr⟩ := h
      subst hm
      subst hr
      obtain ⟨ha, hb, hc, hd⟩ := h3
      refine ⟨[c1, c2], by simp, by simp, by simp, ?_, ?_, by omega⟩
      · intro x hx
        simp at hx
        rcases hx with rfl | rfl <;> assumption
      · rw [digitsVal_two, hc]
        omega
    · rw [Option.some.injEq, Prod.mk.injEq] at h
      obtain ⟨hm, hr⟩ := h
      subst hm
      subst hr
      obtain ⟨ha, hb⟩ := h4
      refine ⟨[c1], by simp, by simp, by simp, ?_, digitsVal_one c1, hb⟩
      intro x hx
      simp at hx
      subst hx
      exact ha

theorem readDay_complete {ds : List Char}
    (hlen1 : 1 ≤ ds.length) (hlen2 : ds.length ≤ 2)
    (hd : ∀ x ∈ ds, isDigitC x = true)
    (hv1 : 1 ≤ digitsVal ds) (hv2 : digitsVal ds ≤ 31) :
    readDay ds = some (digitsVal ds, []) := by
  rcases ds with _ | ⟨x, _ | ⟨y, _ | ⟨z, tl⟩⟩⟩
  · simp [digitsVal, List.foldl] at hv1
  · have hx := hd x (by simp)
    rw [digitsVal_one] at hv1 ⊢
    simp [readDay, hx, hv1]
  · have hx := hd x (by simp)
    have hy := hd y (by simp)
    have hx10 := dval_lt_ten hx
    have hy10 := dval_lt_ten hy
    rw [digitsVal_two] at hv1 hv2 ⊢
    simp only [readDay]
    split_ifs with h1 h2 h3 h4
    · obtain ⟨_, _, hx3, _⟩ := h1
      rw [hx3]
    · rfl
    · obtain ⟨_, _, hx0, _⟩ := h3
      rw [hx0]
      norm_num
    · exfalso
      have hx3 : dval x = 3 := by
        by_contra hne
        rcases Nat.lt_or_ge (dval x) 3 with hlt | hge
        · rcases Nat.eq_zero_or_pos (dval x) with hx0 | hx1
          · exact h3 ⟨hx, hy, hx0, by omega⟩
          · rcases Nat.lt_or_ge (dval x) 2 with h2d | h2d
            · exact h2 ⟨hx, hy, Or.inl (by omega)⟩
            · exact h2 ⟨hx, hy, Or.inr (by omega)⟩
        · omega
      exact h1 ⟨hx, hy, hx3, by omega⟩
    · exfalso
      rcases Nat.eq_zero_or_pos (dval x) with hx0 | hx1
      · exact h3 ⟨hx, hy, hx0, by omega⟩
      · exact h4 ⟨hx, hx1⟩
  · simp at hlen2

theorem parseCivil_sound {l : List Char} {y m d : ℕ}
    (h : parseCivil l = some (y, m, d)) :
    ∃ ys ms ds, l = ys ++ '-' :: (ms ++ '-' :: ds) ∧
      ys.length = 4 ∧ (∀ c ∈ ys, isDigitC c = true) ∧ digitsVal ys = y ∧
      1 ≤ ms.length ∧ ms.length ≤ 2 ∧ (∀ c ∈ ms, isDigitC c = true) ∧
      digitsVal ms = m ∧ 1 ≤ m ∧ m ≤ 12 ∧
      1 ≤ ds.length ∧ ds.length ≤ 2 ∧ (∀ c ∈ ds, isDigitC c = true) ∧
      digitsVal ds = d ∧ 1 ≤ d := by
  unfold parseCivil at h
  simp only [Option.bind_eq_some] at h
  obtain ⟨p1, hY, r2, hE1, p2, hM, r4, hE2, p3, hD, hEnd⟩ := h
  split_ifs at hEnd with hnil
  rw [Option.some.injEq, Prod.mk.injEq, Prod.mk.injEq] at hEnd
  obtain ⟨hy, hm, hd⟩ := hEnd
  obtain ⟨ys, hl1, hy4, hyd, hyv⟩ :=
    readYear_sound (show readYear l = some (p1.1, p1.2) from hY)
  obtain ⟨ms, hl2, hm1, hm2, hmd, hmv, hmlo, hmhi⟩ :=
    readMonth_sound (show readMonth r2 = some (p2.1, p2.2) from hM)
  obtain ⟨ds, hl3, hd1, hd2, hdd, hdv, hdlo⟩ :=
    readDay_sound (show readDay r4 = some (p3.1, p3.2) from hD)
  rw [expectDash_eq_some] at hE1 hE2
  refine ⟨ys, ms, ds, ?_, hy4, hyd, hyv.trans hy, hm1, hm2, hmd, hmv.trans hm,
    by omega, by omega, hd1, hd2, hdd, hdv.trans hd, by omega⟩
  rw [hl1, hE1, hl2, hE2, hl3, hnil]
  simp

theorem parseCivil_complete {ys ms ds : List Char}
    (hy4 : ys.length = 4) (hyd : ∀ c ∈ ys, isDigitC c = true)
    (hm1 : 1 ≤ ms.length) (hm2 : ms.length ≤ 2)
    (hmd : ∀ c ∈ ms, isDigitC c = true)
    (hmv1 : 1 ≤ digitsVal ms) (hmv2 : digitsVal ms ≤ 12)
    (hd1 : 1 ≤ ds.length) (hd2 : ds.length ≤ 2)
    (hdd : ∀ c ∈ ds, isDigitC c = true)
    (hdv1 : 1 ≤ digitsVal ds) (hdv2 : digitsVal ds ≤ 31) :
    parseCivil (ys ++ '-' :: (ms ++ '-' :: ds))
      = some (digitsVal ys, digitsVal ms, digitsVal ds) := by
  unfold parseCivil
  rw [readYear_complete hy4 hyd]
  simp only [Option.some_bind]
  rw [show expectDash ('-' :: (ms ++ '-' :: ds)) = some (ms ++ '-' :: ds) from by
    simp [expectDash]]
  simp only [Option.some_bind]
  rw [readMonth_complete (by decide) hm1 hm2 hmd hmv1 hmv2]
  simp only [Option.some_bind]
  rw [show expectDash ('-' :: ds) = some ds from by simp [expectDash]]
  simp only [Option.some_bind]
  rw [readDay_complete hd1 hd2 hdd hdv1 hdv2]
  simp only [Option.some_bind]
  simp

theorem parseDate_isSome_iff (s : String) :
    (parseDate s).isSome = true ↔ ValidDateStr s := by
  constructor
  · intro h
    rw [Option.isSome_iff_exists] at h
    obtain ⟨c, hc⟩ := h
    unfold parseDate at hc
    rw [Option.bind_eq_some] at hc
    obtain ⟨t, hp, hif⟩ := hc
    split_ifs at hif with hrange
    obtain ⟨hy1, hdm⟩ := hrange
    obtain ⟨ys, ms, ds, hl, h4, hyd, hyv, hm1, hm2, hmd, hmv, hmlo, hmhi,
      hd1, hd2, hdd, hdv, hdlo⟩ :=
      parseCivil_sound (show parseCivil s.data = some (t.1, t.2.1, t.2.2) from hp)
    exact ⟨ys, ms, ds, hl, h4, hyd, by omega, hm1, hm2, hmd, by omega, by omega,
      hd1, hd2, hdd, by omega, by rw [hyv, hmv, hdv]; exact hdm⟩
  · rintro ⟨ys, ms, ds, hl, h4, hyd, hyv, hm1, hm2, hmd, hmv1, hmv12,
      hd1, hd2, hdd, hdv1, hdvm⟩
    unfold parseDate
    rw [hl, parseCivil_complete h4 hyd hm1 hm2 hmd hmv1 hmv12 hd1 hd2 hdd hdv1
      (hdvm.trans (daysInMonth_le _ _))]
    simp [hyv, hdvm]

theorem isDigitC_dash : isDigitC '-' = false := by decide

/-- C4 (amended): a date field's value is interpreted as a calendar date in a
derived-field computation iff it is present (truthy) and is a string the
parser accepts, and the parser accepts exactly the strings made of a
four-digit year (at least 0001), a hyphen, a month 1..12 written with one or
two digits, a hyphen, and a day written with one or two digits between 1 and
the length of that month in that year — zero-padding of month and day is
optional, and a textually well-shaped but calendar-invalid day is rejected
(treated as absent). -/
theorem c4_date_interpretation :
    (∀ s : String, (parseDate s).isSome = true ↔ ValidDateStr s) ∧
    (∀ (row : Record) (k1 k2 : String),
      (dateDelta row k1 k2).isSome = true ↔
        ((∃ s, getTruthy row k1 = some (Value.vStr s) ∧ ValidDateStr s) ∧
         (∃ s, getTruthy row k2 = some (Value.vStr s) ∧ ValidDateStr s))) := by
  refine ⟨parseDate_isSome_iff, ?_⟩
  intro row k1 k2
  unfold dateDelta
  cases hg1 : getTruthy row k1 with
  | none => cases hg2 : getTruthy row k2 <;> simp
  | some v1 =>
    cases hg2 : getTruthy row k2 with
    | none => simp
    | some v2 =>
      cases v1 with
      | vNum q1 => cases hq : parseDateValue v2 <;> simp [parseDateValue, hq]
      | vNull => cases hq : parseDateValue v2 <;> simp [parseDateValue, hq]
      | vStr s1 =>
        cases v2 with
        | vNum q2 => cases hp1 : parseDate s1 <;> simp [parseDateValue, hp1]
        | vNull => cases hp1 : parseDate s1 <;> simp [parseDateValue, hp1]
        | vStr s2 =>
          cases hp1 : parseDate s1 <;> cases hp2 : parseDate s2 <;>
            simp [parseDateValue, hp1, hp2, ← parseDate_isSome_iff]

/-- C4 counterexample: `"2024-1-5"` is not of the exact textual form
`YYYY-MM-DD` (month and day lack zero padding), yet the enricher interprets
it — `days_order_entry` comes out 4, not the null the claim requires for a
value "not of that exact textual form"; conversely `"2024-02-30"` is of the
exact textual form yet `strptime` rejects it (no February 30th), so it is
treated as absent. -/
theorem c4_textual_counterexample :
    wellFormedISO "2024-1-5" = false ∧
    rget (enrichRow lenientDateRow) "days_order_entry"
      = some (Value.vNum 4) ∧
    some (Value.vNum 4) ≠ some Value.vNull ∧
    wellFormedISO "2024-02-30" = true ∧
    parseDate "2024-02-30" = none := by
  refine ⟨by decide, by decide, by decide, by decide, by decide⟩

/-- Sanity check: the spec's worked example (§8) comes out as documented for
the five date-derived fields. -/
theorem sample_enrichment_values :
    rget (enrichRow sampleRow) "days_order_entry" = some (Value.vNum 4) ∧
    rget (enrichRow sampleRow) "days_order_confirmation" = some (Value.vNum 1) ∧
    rget (enrichRow sampleRow) "days_fulfillment" = some (Value.vNum 6) ∧
    rget (enrichRow sampleRow) "days_late_early" = some (Value.vNum (-2)) ∧
    rget (enrichRow sampleRow) "on_time_delivery"
      = some (Value.vStr "On Time") := by
  refine ⟨by decide, by decide, by decide, by decide, by decide⟩
